import Mathlib

/-!
Verification of the decode-loop state machine of the libde265/vp8 GStreamer
decoder elements (ext/libde265/libde265-dec.c and ext/vp8/gstvp8dec.c).

Byte buffers are modelled as `List Nat` (each entry a byte value; reads apply
`% 256`, which is the identity on genuine byte data).  Machine 32-bit reads are
modelled with explicit `% 2 ^ 32` / sign adjustment, never with fixed-width
integer types.  The libde265 engine is opaque; it is modelled through its
visible queues (pending pictures, pending warnings) and through a per-feed
response record giving the result code of `de265_push_data`/`de265_decode`
and the pictures/warnings the engine produced during that call.
-/

/-- Byte-wise big-endian 32-bit read, the READ_BE32 macro of libde265-dec.c. -/
def READ_BE32 (l : List Nat) (pos : Nat) : Nat :=
  (l.getD pos 0 % 256) * 16777216 + (l.getD (pos + 1) 0 % 256) * 65536 +
    (l.getD (pos + 2) 0 % 256) * 256 + l.getD (pos + 3) 0 % 256

/-- Interpretation of a 32-bit value as a signed C `int`, as in
`int nal_size = READ_BE32 (start_data)`. -/
def toInt32 (v : Nat) : Int :=
  if v % 4294967296 < 2147483648 then ((v % 4294967296 : Nat) : Int)
  else ((v % 4294967296 : Nat) : Int) - 4294967296

/-- The WRITE_BE32(start_data, 0x00000001) call: overwrite the four bytes at
`pos` with the NAL start-code marker 00 00 00 01. -/
def writeStartCode (l : List Nat) (pos : Nat) : List Nat :=
  ((((l.set pos 0).set (pos + 1) 0).set (pos + 2) 0).set (pos + 3) 1)

/-- Outcome of the length-field rewriting loop of `gst_libde265_dec_parse`
(packetized mode): either the loop exits with the rewritten buffer, the final
cursor position and the number of start-code markers written, or a negative
length field moved the cursor before the start of the buffer, where the C
code would read out of bounds (undefined behaviour). -/
inductive WalkOut where
  | fin (data : List Nat) (pos : Nat) (marks : Nat)
  | escaped
  deriving DecidableEq, Repr

/-- Fuel-indexed model of the rewriting loop
`while (start_data + 4 <= end_data) { nal_size = READ_BE32(start_data);
WRITE_BE32(start_data, 0x00000001); start_data += 4 + nal_size; }`.
`none` means the fuel ran out; `reframeBound` fuel is proved sufficient. -/
def reframeWalkF : Nat → List Nat → Nat → Nat → Option WalkOut
  | 0, _, _, _ => none
  | fuel + 1, l, pos, marks =>
    if pos + 4 ≤ l.length then
      let nal := toInt32 (READ_BE32 l pos)
      let l' := writeStartCode l pos
      let t : Int := (pos : Int) + 4 + nal
      if t < 0 then some WalkOut.escaped
      else reframeWalkF fuel l' t.toNat (marks + 1)
    else some (WalkOut.fin l pos marks)

theorem reframeWalkF_zero (l : List Nat) (pos marks : Nat) :
    reframeWalkF 0 l pos marks = none := rfl

theorem reframeWalkF_succ (fuel : Nat) (l : List Nat) (pos marks : Nat) :
    reframeWalkF (fuel + 1) l pos marks =
      if pos + 4 ≤ l.length then
        if ((pos : Int) + 4 + toInt32 (READ_BE32 l pos)) < 0 then some WalkOut.escaped
        else reframeWalkF fuel (writeStartCode l pos)
          ((pos : Int) + 4 + toInt32 (READ_BE32 l pos)).toNat (marks + 1)
      else some (WalkOut.fin l pos marks) := rfl

/-- A byte with the top bit set, i.e. one that makes the signed 32-bit read of
a window starting at it negative. -/
def isHigh (b : Nat) : Bool := decide (128 ≤ b % 256)

/-- Number of top-bit-set bytes in a buffer; this can never increase during
the rewriting loop because the start-code bytes written are 0 and 1. -/
def countHigh (l : List Nat) : Nat := l.countP isHigh

/-- Ranking function for the rewriting loop: every iteration either keeps the
high-byte count and moves the cursor forward, or consumes a high byte. -/
def walkMeasure (l : List Nat) (pos : Nat) : Nat :=
  countHigh l * (2 * l.length + 10) + (l.length - pos)

/-- Fuel that is provably sufficient for the rewriting loop on buffer `l`. -/
def reframeBound (l : List Nat) : Nat :=
  countHigh l * (2 * l.length + 10) + l.length + 1

theorem length_writeStartCode (l : List Nat) (pos : Nat) :
    (writeStartCode l pos).length = l.length := by
  simp [writeStartCode]

theorem READ_BE32_lt (l : List Nat) (pos : Nat) : READ_BE32 l pos < 4294967296 := by
  unfold READ_BE32
  have h0 := Nat.mod_lt (l.getD pos 0) (show 0 < 256 by norm_num)
  have h1 := Nat.mod_lt (l.getD (pos + 1) 0) (show 0 < 256 by norm_num)
  have h2 := Nat.mod_lt (l.getD (pos + 2) 0) (show 0 < 256 by norm_num)
  have h3 := Nat.mod_lt (l.getD (pos + 3) 0) (show 0 < 256 by norm_num)
  omega

theorem toInt32_of_lt {v : Nat} (h : v < 2147483648) : toInt32 v = (v : Int) := by
  have hv : v % 4294967296 = v := Nat.mod_eq_of_lt (by omega)
  simp [toInt32, hv, h]

theorem toInt32_of_ge {v : Nat} (h1 : 2147483648 ≤ v) (h2 : v < 4294967296) :
    toInt32 v = (v : Int) - 4294967296 := by
  have hv : v % 4294967296 = v := Nat.mod_eq_of_lt h2
  simp [toInt32, hv]
  omega

theorem toInt32_neg_high (l : List Nat) (pos : Nat)
    (h : toInt32 (READ_BE32 l pos) < 0) : isHigh (l.getD pos 0) = true := by
  have hlt := READ_BE32_lt l pos
  by_cases hv : READ_BE32 l pos < 2147483648
  · rw [toInt32_of_lt hv] at h
    omega
  · unfold READ_BE32 at hv
    have h0 := Nat.mod_lt (l.getD pos 0) (show 0 < 256 by norm_num)
    have h1 := Nat.mod_lt (l.getD (pos + 1) 0) (show 0 < 256 by norm_num)
    have h2 := Nat.mod_lt (l.getD (pos + 2) 0) (show 0 < 256 by norm_num)
    have h3 := Nat.mod_lt (l.getD (pos + 3) 0) (show 0 < 256 by norm_num)
    simp only [isHigh, decide_eq_true_eq]
    omega

theorem countP_set_le (p : Nat → Bool) :
    ∀ (l : List Nat) (i v : Nat), p v = false →
      (l.set i v).countP p ≤ l.countP p := by
  intro l
  induction l with
  | nil => intro i v _; simp
  | cons a lt ih =>
    intro i v hv
    cases i with
    | zero => simp [List.countP_cons, hv]
    | succ j =>
      simp only [List.set_cons_succ, List.countP_cons]
      have := ih j v hv
      omega

theorem countP_set_lt (p : Nat → Bool) :
    ∀ (l : List Nat) (i v : Nat), i < l.length → p (l.getD i 0) = true →
      p v = false → (l.set i v).countP p < l.countP p := by
  intro l
  induction l with
  | nil => intro i v h _ _; simp at h
  | cons a lt ih =>
    intro i v hi hp hv
    cases i with
    | zero =>
      simp only [List.getD_cons_zero] at hp
      simp [List.countP_cons, hp, hv]
    | succ j =>
      simp only [List.length_cons, Nat.succ_lt_succ_iff] at hi
      simp only [List.getD_cons_succ] at hp
      simp only [List.set_cons_succ, List.countP_cons]
      have := ih j v hi hp hv
      omega

theorem countHigh_writeStartCode_le (l : List Nat) (pos : Nat) :
    countHigh (writeStartCode l pos) ≤ countHigh l := by
  unfold countHigh writeStartCode
  have h1 : isHigh 1 = false := by decide
  have h0 : isHigh 0 = false := by decide
  calc ((((l.set pos 0).set (pos + 1) 0).set (pos + 2) 0).set (pos + 3) 1).countP isHigh
      ≤ (((l.set pos 0).set (pos + 1) 0).set (pos + 2) 0).countP isHigh :=
        countP_set_le isHigh _ _ _ h1
    _ ≤ ((l.set pos 0).set (pos + 1) 0).countP isHigh := countP_set_le isHigh _ _ _ h0
    _ ≤ (l.set pos 0).countP isHigh := countP_set_le isHigh _ _ _ h0
    _ ≤ l.countP isHigh := countP_set_le isHigh _ _ _ h0

theorem countHigh_writeStartCode_lt (l : List Nat) (pos : Nat)
    (hpos : pos < l.length) (hhigh : isHigh (l.getD pos 0) = true) :
    countHigh (writeStartCode l pos) < countHigh l := by
  unfold countHigh writeStartCode
  have h1 : isHigh 1 = false := by decide
  have h0 : isHigh 0 = false := by decide
  calc ((((l.set pos 0).set (pos + 1) 0).set (pos + 2) 0).set (pos + 3) 1).countP isHigh
      ≤ (((l.set pos 0).set (pos + 1) 0).set (pos + 2) 0).countP isHigh :=
        countP_set_le isHigh _ _ _ h1
    _ ≤ ((l.set pos 0).set (pos + 1) 0).countP isHigh := countP_set_le isHigh _ _ _ h0
    _ ≤ (l.set pos 0).countP isHigh := countP_set_le isHigh _ _ _ h0
    _ < l.countP isHigh := countP_set_lt isHigh l pos 0 hpos hhigh h0

/-- Every loop iteration strictly decreases `walkMeasure`: a non-negative
length field moves the cursor at least one byte forward, and a negative one
consumes the top-bit-set byte it was read from (the start-code overwrite
clears it). -/
theorem walkMeasure_decreases (l : List Nat) (pos : Nat)
    (hin : pos + 4 ≤ l.length)
    (hnn : ¬ ((pos : Int) + 4 + toInt32 (READ_BE32 l pos) < 0)) :
    walkMeasure (writeStartCode l pos) ((pos : Int) + 4 + toInt32 (READ_BE32 l pos)).toNat <
      walkMeasure l pos := by
  set nal := toInt32 (READ_BE32 l pos) with hnal
  have hlen : (writeStartCode l pos).length = l.length := length_writeStartCode l pos
  rcases le_or_lt 0 nal with hpos_nal | hneg_nal
  · -- non-negative signed length: cursor moves forward by at least 4
    have hch : countHigh (writeStartCode l pos) ≤ countHigh l :=
      countHigh_writeStartCode_le l pos
    have ht : ((pos : Int) + 4 + nal).toNat ≥ pos + 4 := by omega
    unfold walkMeasure
    rw [hlen]
    have hmul : countHigh (writeStartCode l pos) * (2 * l.length + 10) ≤
        countHigh l * (2 * l.length + 10) := Nat.mul_le_mul_right _ hch
    omega
  · -- negative signed length: the byte at `pos` had its top bit set and is
    -- overwritten with 0, so the high-byte count strictly decreases
    have hhigh : isHigh (l.getD pos 0) = true := toInt32_neg_high l pos hneg_nal
    have hch : countHigh (writeStartCode l pos) < countHigh l :=
      countHigh_writeStartCode_lt l pos (by omega) hhigh
    unfold walkMeasure
    rw [hlen]
    set K := 2 * l.length + 10 with hK
    have hK1 : l.length < K := by omega
    have hmul : countHigh (writeStartCode l pos) * K ≤ (countHigh l - 1) * K :=
      Nat.mul_le_mul_right _ (by omega)
    have hsplit : (countHigh l - 1) * K + K = countHigh l * K := by
      have : (countHigh l - 1) + 1 = countHigh l := by omega
      calc (countHigh l - 1) * K + K = ((countHigh l - 1) + 1) * K := by ring
        _ = countHigh l * K := by rw [this]
    have hrem : l.length - ((pos : Int) + 4 + nal).toNat ≤ l.length := by omega
    calc countHigh (writeStartCode l pos) * K + (l.length - ((pos : Int) + 4 + nal).toNat)
        ≤ (countHigh l - 1) * K + l.length := by omega
      _ < (countHigh l - 1) * K + K := by omega
      _ = countHigh l * K := hsplit
      _ ≤ countHigh l * K + (l.length - pos) := Nat.le_add_right _ _

/-- With fuel exceeding `walkMeasure`, the rewriting loop completes. -/
theorem reframeWalkF_isSome :
    ∀ (n : Nat) (l : List Nat) (pos marks : Nat), walkMeasure l pos < n →
      (reframeWalkF n l pos marks).isSome = true := by
  intro n
  induction n with
  | zero => intro l pos marks h; omega
  | succ m ih =>
    intro l pos marks h
    rw [reframeWalkF_succ]
    by_cases hin : pos + 4 ≤ l.length
    · simp only [hin, if_true]
      by_cases hneg : ((pos : Int) + 4 + toInt32 (READ_BE32 l pos)) < 0
      · simp [hneg]
      · simp only [hneg, if_false]
        apply ih
        have := walkMeasure_decreases l pos hin hneg
        omega
    · simp [hin]

/-- The loop's fuel bound is sufficient for any start position. -/
theorem reframeWalkF_bound_isSome (l : List Nat) (pos marks : Nat) :
    (reframeWalkF (reframeBound l) l pos marks).isSome = true := by
  apply reframeWalkF_isSome
  unfold walkMeasure reframeBound
  omega

/-- When the loop exits normally, fewer than 4 bytes remain at the final
cursor (which may also lie past the end of the buffer). -/
theorem reframeWalkF_fin_pos :
    ∀ (n : Nat) (l : List Nat) (pos marks : Nat) (data : List Nat) (f m : Nat),
      reframeWalkF n l pos marks = some (WalkOut.fin data f m) → data.length < f + 4 := by
  intro n
  induction n with
  | zero => intro l pos marks data f m h; simp [reframeWalkF_zero] at h
  | succ k ih =>
    intro l pos marks data f m h
    rw [reframeWalkF_succ] at h
    by_cases hin : pos + 4 ≤ l.length
    · simp only [hin, if_true] at h
      by_cases hneg : ((pos : Int) + 4 + toInt32 (READ_BE32 l pos)) < 0
      · simp [hneg] at h
      · simp only [hneg, if_false] at h
        exact ih _ _ _ _ _ _ h
    · simp only [hin, if_false, Option.some.injEq] at h
      cases h
      omega

/-- The 4-byte big-endian encoding of a record length. -/
def lenBE32 (n : Nat) : List Nat :=
  [n / 16777216 % 256, n / 65536 % 256, n / 256 % 256, n % 256]

/-- A length-prefixed (packetized) buffer: each record is its 4-byte
big-endian length followed by the payload bytes. -/
def encodeRecords : List (List Nat) → List Nat
  | [] => []
  | r :: rs => lenBE32 r.length ++ r ++ encodeRecords rs

/-- The same records after the rewriting loop: each length field replaced by
the start-code marker 00 00 00 01. -/
def reencodeRecords : List (List Nat) → List Nat
  | [] => []
  | r :: rs => 0 :: 0 :: 0 :: 1 :: (r ++ reencodeRecords rs)

theorem getD_append_len :
    ∀ (pre l : List Nat) (i : Nat), (pre ++ l).getD (pre.length + i) 0 = l.getD i 0 := by
  intro pre
  induction pre with
  | nil => intro l i; simp
  | cons a p ih =>
    intro l i
    have : (a :: p).length + i = (p.length + i) + 1 := by simp; omega
    rw [this]
    simpa using ih l i

theorem set_append_len :
    ∀ (pre l : List Nat) (i v : Nat), (pre ++ l).set (pre.length + i) v = pre ++ l.set i v := by
  intro pre
  induction pre with
  | nil => intro l i v; simp
  | cons a p ih =>
    intro l i v
    have : (a :: p).length + i = (p.length + i) + 1 := by simp; omega
    rw [this]
    simp only [List.cons_append, List.set_cons_succ]
    rw [ih]

theorem READ_BE32_at_lenBE32 (pre rest : List Nat) (n : Nat) (hn : n < 4294967296) :
    READ_BE32 (pre ++ (lenBE32 n ++ rest)) pre.length = n := by
  unfold READ_BE32 lenBE32
  have e0 := getD_append_len pre ([n / 16777216 % 256, n / 65536 % 256, n / 256 % 256, n % 256] ++ rest) 0
  have e1 := getD_append_len pre ([n / 16777216 % 256, n / 65536 % 256, n / 256 % 256, n % 256] ++ rest) 1
  have e2 := getD_append_len pre ([n / 16777216 % 256, n / 65536 % 256, n / 256 % 256, n % 256] ++ rest) 2
  have e3 := getD_append_len pre ([n / 16777216 % 256, n / 65536 % 256, n / 256 % 256, n % 256] ++ rest) 3
  simp only [lenBE32] at e0 e1 e2 e3 ⊢
  rw [show pre.length + 1 = pre.length + 1 from rfl] at e1
  simp only [Nat.add_zero] at e0
  rw [e0, e1, e2, e3]
  simp only [List.cons_append, List.getD_cons_zero, List.getD_cons_succ]
  omega

theorem writeStartCode_at (pre : List Nat) (a b c d : Nat) (rest : List Nat) :
    writeStartCode (pre ++ (a :: b :: c :: d :: rest)) pre.length =
      pre ++ (0 :: 0 :: 0 :: 1 :: rest) := by
  unfold writeStartCode
  have s0 : (pre ++ (a :: b :: c :: d :: rest)).set pre.length 0 =
      pre ++ (0 :: b :: c :: d :: rest) := by
    have h := set_append_len pre (a :: b :: c :: d :: rest) 0 0
    rw [Nat.add_zero] at h
    exact h.trans rfl
  have s1 : (pre ++ (0 :: b :: c :: d :: rest)).set (pre.length + 1) 0 =
      pre ++ (0 :: 0 :: c :: d :: rest) :=
    (set_append_len pre (0 :: b :: c :: d :: rest) 1 0).trans rfl
  have s2 : (pre ++ (0 :: 0 :: c :: d :: rest)).set (pre.length + 2) 0 =
      pre ++ (0 :: 0 :: 0 :: d :: rest) :=
    (set_append_len pre (0 :: 0 :: c :: d :: rest) 2 0).trans rfl
  have s3 : (pre ++ (0 :: 0 :: 0 :: d :: rest)).set (pre.length + 3) 1 =
      pre ++ (0 :: 0 :: 0 :: 1 :: rest) :=
    (set_append_len pre (0 :: 0 :: 0 :: d :: rest) 3 1).trans rfl
  rw [s0, s1, s2, s3]

theorem length_encodeRecords_cons (r : List Nat) (rs : List (List Nat)) :
    (encodeRecords (r :: rs)).length = 4 + r.length + (encodeRecords rs).length := by
  simp [encodeRecords, lenBE32]
  omega

/-- Main loop lemma: on a buffer that is a well-formed packetized prefix
(records whose lengths fit a signed 32-bit int) followed by fewer than 4
trailing bytes, the rewriting loop rewrites exactly the length fields, leaves
everything else (including the trailing bytes) unchanged, stops exactly at
the start of the trailing bytes, and writes one marker per record. -/
theorem reframeWalkF_encode :
    ∀ (recs : List (List Nat)) (pre extra : List Nat) (marks fuel : Nat),
      (∀ r ∈ recs, r.length < 2147483648) → extra.length ≤ 3 →
      recs.length + 1 ≤ fuel →
      reframeWalkF fuel (pre ++ (encodeRecords recs ++ extra)) pre.length marks =
        some (WalkOut.fin (pre ++ (reencodeRecords recs ++ extra))
          (pre.length + (encodeRecords recs).length) (marks + recs.length)) := by
  intro recs
  induction recs with
  | nil =>
    intro pre extra marks fuel _ hextra hfuel
    obtain ⟨f, rfl⟩ : ∃ f, fuel = f + 1 := ⟨fuel - 1, by omega⟩
    rw [reframeWalkF_succ]
    have hlen : (pre ++ (encodeRecords [] ++ extra)).length = pre.length + extra.length := by
      simp [encodeRecords]
    rw [if_neg (by rw [hlen]; omega)]
    simp [encodeRecords, reencodeRecords]
  | cons r rs ih =>
    intro pre extra marks fuel hrec hextra hfuel
    obtain ⟨f, rfl⟩ : ∃ f, fuel = f + 1 := ⟨fuel - 1, by omega⟩
    have hr : r.length < 2147483648 := hrec r (by simp)
    have hrs : ∀ q ∈ rs, q.length < 2147483648 := fun q hq => hrec q (by simp [hq])
    rw [reframeWalkF_succ]
    have hshape : encodeRecords (r :: rs) ++ extra =
        lenBE32 r.length ++ (r ++ (encodeRecords rs ++ extra)) := by
      simp [encodeRecords]
    have hlen : (pre ++ (encodeRecords (r :: rs) ++ extra)).length =
        pre.length + (4 + r.length + (encodeRecords rs).length) + extra.length := by
      simp [List.length_append, length_encodeRecords_cons]
      omega
    rw [if_pos (by rw [hlen]; omega)]
    rw [hshape, READ_BE32_at_lenBE32 pre (r ++ (encodeRecords rs ++ extra)) r.length (by omega)]
    rw [toInt32_of_lt hr]
    rw [if_neg (by omega)]
    have hwrite : writeStartCode
        (pre ++ (lenBE32 r.length ++ (r ++ (encodeRecords rs ++ extra)))) pre.length =
        pre ++ (0 :: 0 :: 0 :: 1 :: (r ++ (encodeRecords rs ++ extra))) := by
      unfold lenBE32
      exact writeStartCode_at pre _ _ _ _ (r ++ (encodeRecords rs ++ extra))
    rw [hwrite]
    have htoNat : ((pre.length : Int) + 4 + (r.length : Int)).toNat =
        (pre ++ (0 :: 0 :: 0 :: 1 :: r)).length := by
      simp [List.length_append]
      omega
    have hassoc : pre ++ (0 :: 0 :: 0 :: 1 :: (r ++ (encodeRecords rs ++ extra))) =
        (pre ++ (0 :: 0 :: 0 :: 1 :: r)) ++ (encodeRecords rs ++ extra) := by
      simp
    rw [htoNat, hassoc]
    have hf : rs.length + 1 ≤ f := by
      simp only [List.length_cons] at hfuel
      omega
    rw [ih (pre ++ (0 :: 0 :: 0 :: 1 :: r)) extra (marks + 1) f hrs hextra hf]
    simp only [Option.some.injEq, WalkOut.fin.injEq]
    refine ⟨?_, ?_, ?_⟩
    · simp [reencodeRecords]
    · simp only [List.length_append, List.length_cons, length_encodeRecords_cons]
      omega
    · simp only [List.length_cons]
      omega

/-- Input mode property of the element (`mode` property, lines 84-115). -/
inductive Mode where
  | packetized
  | raw
  deriving DecidableEq, Repr

/-- Result of the combined `de265_push_data` + `de265_decode` call, i.e. the
engine's feed result code as discriminated by the switch in
`gst_libde265_dec_parse`.  `err` covers the `default:` branch. -/
inductive DE265Result where
  | ok
  | imageBufferFull
  | waitingForInput
  | err (code : Nat)
  deriving DecidableEq, Repr

/-- A decoded picture as seen by the decode loop: only its geometry matters
to `gst_libde265_dec_parse` / `_gst_libde265_image_available`. -/
structure Pic where
  width : Int
  height : Int
  deriving DecidableEq, Repr

/-- The decoder-element state touched by the decode loop: recorded output
geometry, the Backlog Flag (`buffer_full`), configured frame rate and mode. -/
structure DecState where
  width : Int
  height : Int
  buffer_full : Bool
  fps_n : Int
  fps_d : Int
  mode : Mode
  deriving DecidableEq, Repr

/-- The externally visible state of the opaque de265 decoder context: its
FIFO queue of pending decoded pictures and its queue of pending warnings
(warning codes; the real engine never queues code 0 = DE265_OK). -/
structure Ctx where
  pics : List Pic
  warns : List Nat
  deriving DecidableEq, Repr

/-- One feed transaction of the opaque engine: the result code of
`de265_push_data`/`de265_decode` plus the pictures and warnings the engine
appended to its queues while processing the fed bytes. -/
structure FeedResp where
  code : DE265Result
  newPics : List Pic
  newWarns : List Nat
  deriving DecidableEq, Repr

/-- Externally observable actions of one parse cycle, in order. -/
inductive Event where
  | takeBuffer (n : Nat)
  | feed (data : List Nat)
  | warn (code : Nat)
  | renegotiate (w h : Int) (fps : Option (Int × Int))
  | haveFrame
  | elementError
  deriving DecidableEq, Repr

/-- GstFlowReturn values produced by the parse cycle. -/
inductive FlowRet where
  | ok
  | error
  | needData
  deriving DecidableEq, Repr

/-- Model of `_gst_libde265_image_available` (lines 310-335): if the picture
geometry differs from the recorded one, set a new output state carrying the
new width/height (and the configured frame rate if its numerator is
positive), renegotiate and record the new geometry; then hand the frame to
the base class (`gst_video_decoder_have_frame`, whose flow return `hfRet` is
supplied by the framework). -/
def imageAvailable (dec : DecState) (img : Pic) (hfRet : FlowRet) :
    FlowRet × DecState × List Event :=
  if img.width ≠ dec.width ∨ img.height ≠ dec.height then
    (hfRet, { dec with width := img.width, height := img.height },
      [Event.renegotiate img.width img.height
        (if dec.fps_n > 0 then some (dec.fps_n, dec.fps_d) else none),
       Event.haveFrame])
  else
    (hfRet, dec, [Event.haveFrame])

/-- Model of the warning loop
`while ((ret = de265_get_warning(ctx)) != DE265_OK) GST_ELEMENT_WARNING(...)`:
pop warnings until the queue is empty (or until a queued code equal to
DE265_OK = 0 stops the loop). -/
def drainWarnings : List Nat → List Nat × List Event
  | [] => ([], [])
  | w :: rest =>
    if w = 0 then (rest, [])
    else
      let p := drainWarnings rest
      (p.1, Event.warn w :: p.2)

/-- Model of `gst_libde265_dec_parse` from the `de265_push_data` call on
(lines 386-424): the engine consumes the buffer and reports `resp`; then the
result code is interpreted, warnings are drained in the DE265_OK case, and a
pending picture (if any) is surfaced. -/
def feedRest (dec : DecState) (ctx : Ctx) (data : List Nat) (resp : FeedResp)
    (hfRet : FlowRet) (evs0 : List Event) : FlowRet × DecState × Ctx × List Event :=
  let ctx1 : Ctx := { pics := ctx.pics ++ resp.newPics, warns := ctx.warns ++ resp.newWarns }
  let evs1 := evs0 ++ [Event.feed data]
  match resp.code with
  | DE265Result.err _ => (FlowRet.error, dec, ctx1, evs1 ++ [Event.elementError])
  | DE265Result.imageBufferFull =>
    let dec1 := { dec with buffer_full := true }
    match ctx1.pics.head? with
    | none => (FlowRet.needData, dec1, ctx1, evs1)
    | some img =>
      let r := imageAvailable dec1 img hfRet
      (r.1, r.2.1, ctx1, evs1 ++ r.2.2)
  | DE265Result.waitingForInput => (FlowRet.needData, dec, ctx1, evs1)
  | DE265Result.ok =>
    let w := drainWarnings ctx1.warns
    let ctx2 : Ctx := { ctx1 with warns := w.1 }
    match ctx2.pics.head? with
    | none => (FlowRet.needData, dec, ctx2, evs1 ++ w.2)
    | some img =>
      let r := imageAvailable dec img hfRet
      (r.1, r.2.1, ctx2, evs1 ++ w.2 ++ r.2.2)

/-- Model of `gst_libde265_dec_parse` after the backlog check (lines
358-424): take the available bytes, rewrite length fields in packetized mode
(aborting with a stream error if the walk overran the buffer), and feed the
engine.  `none` models the undefined behaviour of the C code when a negative
length field moves the walk cursor before the buffer start. -/
def parseCore (dec : DecState) (ctx : Ctx) (adapter : List Nat) (resp : FeedResp)
    (hfRet : FlowRet) : Option (FlowRet × DecState × Ctx × List Event) :=
  if adapter.length = 0 then some (FlowRet.needData, dec, ctx, [])
  else
    let evs0 := [Event.takeBuffer adapter.length]
    if dec.mode = Mode.packetized then
      match reframeWalkF (reframeBound adapter) adapter 0 0 with
      | none => none
      | some WalkOut.escaped => none
      | some (WalkOut.fin data pos _) =>
        if data.length < pos then
          some (FlowRet.error, dec, ctx, evs0 ++ [Event.elementError])
        else some (feedRest dec ctx data resp hfRet evs0)
    else some (feedRest dec ctx adapter resp hfRet evs0)

/-- Model of `gst_libde265_dec_parse` (lines 337-424).  A parse cycle begins
with the backlog check: with the Backlog Flag set, a pending picture is
surfaced without touching the adapter, and otherwise the flag is cleared and
the cycle proceeds normally. -/
def parse (dec : DecState) (ctx : Ctx) (adapter : List Nat) (resp : FeedResp)
    (hfRet : FlowRet) : Option (FlowRet × DecState × Ctx × List Event) :=
  if dec.buffer_full then
    match ctx.pics.head? with
    | some img =>
      let r := imageAvailable dec img hfRet
      some (r.1, r.2.1, ctx, r.2.2)
    | none => parseCore { dec with buffer_full := false } ctx adapter resp hfRet
  else parseCore dec ctx adapter resp hfRet

/-- The `do { img = de265_get_next_picture(ctx); } while (img != NULL)` loop
of `gst_libde265_dec_flush`: pull pictures until none remain. -/
def drainPending : List Pic → List Pic
  | [] => []
  | _ :: rest => drainPending rest

/-- Model of `gst_libde265_dec_flush` (lines 295-308): discard all pending
decoded pictures and clear the Backlog Flag.  The returned Bool is the
function's gboolean result (always TRUE); the event list records everything
it emits downstream (nothing). -/
def flush (dec : DecState) (ctx : Ctx) : Bool × DecState × Ctx × List Event :=
  (true, { dec with buffer_full := false }, { ctx with pics := drainPending ctx.pics }, [])

/-- One plane of a decoded picture: geometry as reported by
`de265_get_image_width`/`de265_get_image_height` (respectively the vpx image
descriptor), the stride returned by `de265_get_image_plane`, and the plane's
pixel bytes laid out row after row `stride` bytes apart. -/
structure Plane where
  width : Nat
  height : Nat
  stride : Nat
  data : List Nat
  deriving DecidableEq, Repr

/-- The three planes of a decoded 4:2:0 picture, in plane order 0, 1, 2
(luma, then the two chroma planes). -/
structure Image3 where
  y : Plane
  cb : Plane
  cr : Plane
  deriving DecidableEq, Repr

/-- The plane-copy loop of `gst_libde265_dec_handle_frame` (lines 470-476):
for each plane in order, `memcpy(dest, src, height * stride)` and advance the
destination by `height * stride` bytes. -/
def handleFrameCopy (img : Image3) : List Nat :=
  img.y.data.take (img.y.height * img.y.stride) ++
    (img.cb.data.take (img.cb.height * img.cb.stride) ++
      img.cr.data.take (img.cr.height * img.cr.stride))

/-- Rows 0..h-1 of a plane, each `w` bytes wide, read `stride` bytes apart
from the source. -/
def takeRows (data : List Nat) (w stride : Nat) : Nat → List Nat
  | 0 => []
  | h + 1 => data.take w ++ takeRows (data.drop stride) w stride h

/-- Modelled from the spec: the canonical tightly packed planar 4:2:0 frame
of §4.3 — for each plane in order, its `height` rows of `width` meaningful
bytes extracted at `stride` spacing and packed contiguously. -/
def specTightFrame (img : Image3) : List Nat :=
  takeRows img.y.data img.y.width img.y.stride img.y.height ++
    (takeRows img.cb.data img.cb.width img.cb.stride img.cb.height ++
      takeRows img.cr.data img.cr.width img.cr.stride img.cr.height)

/-- One `memcpy` into the destination frame buffer: write the given bytes at
consecutive offsets starting at `off`.  (A write past the destination end is
dropped by `List.set`; in C that `memcpy` would overrun the buffer.) -/
def writeAt : List Nat → Nat → List Nat → List Nat
  | dest, _, [] => dest
  | dest, off, b :: bs => writeAt (dest.set off b) (off + 1) bs

/-- One row-copy loop of `gst_vp8_dec_handle_frame`: `h` iterations of
`memcpy(dest + dOff + i * w, src + i * stride, w)`, with the destination
offset advancing by `w` and the source by `stride` per iteration. -/
def vp8CopyRows : List Nat → Nat → List Nat → Nat → Nat → Nat → List Nat
  | dest, _, _, _, _, 0 => dest
  | dest, dOff, src, stride, w, h + 1 =>
    vp8CopyRows (writeAt dest dOff (src.take w)) (dOff + w) (src.drop stride) stride w h

/-- The three row-copy loops of `gst_vp8_dec_handle_frame` (gstvp8dec.c lines
368-389) into the allocated destination buffer: `state.height` rows of
`state.width` luma bytes at destination offset 0, then `height/2` rows of
`width/2` bytes of each chroma plane at the fixed destination offsets
`width * height` (cb) and `width * height + width * height / 4` (cr).  The
cb rows end at `width * height + (height/2) * (width/2)`, so a gap of
unwritten destination bytes precedes the cr plane whenever `width` or
`height` is odd. -/
def vp8Assemble (w h : Nat) (img : Image3) (dest : List Nat) : List Nat :=
  vp8CopyRows
    (vp8CopyRows
      (vp8CopyRows dest 0 img.y.data img.y.stride w h)
      (w * h) img.cb.data img.cb.stride (w / 2) (h / 2))
    (w * h + w * h / 4) img.cr.data img.cr.stride (w / 2) (h / 2)

/-- When a plane's stride equals its width, consecutive `width`-wide rows are
exactly the first `height * width` bytes of the plane data. -/
theorem takeRows_stride_eq_width (w : Nat) :
    ∀ (h : Nat) (data : List Nat), takeRows data w w h = data.take (h * w) := by
  intro h
  induction h with
  | zero => intro data; simp [takeRows]
  | succ k ih =>
    intro data
    have hmul : (k + 1) * w = w + k * w := by ring
    rw [takeRows, ih, hmul, List.take_add]

theorem imageAvailable_fst (dec : DecState) (img : Pic) (hf : FlowRet) :
    (imageAvailable dec img hf).1 = hf := by
  unfold imageAvailable
  split <;> rfl

theorem imageAvailable_buffer_full (dec : DecState) (img : Pic) (hf : FlowRet) :
    (imageAvailable dec img hf).2.1.buffer_full = dec.buffer_full := by
  unfold imageAvailable
  split <;> rfl

theorem drainPending_eq_nil : ∀ l : List Pic, drainPending l = [] := by
  intro l
  induction l with
  | nil => rfl
  | cons p rest ih => simpa [drainPending] using ih

theorem drainWarnings_of_nonzero :
    ∀ l : List Nat, (∀ w ∈ l, w ≠ 0) → drainWarnings l = ([], l.map Event.warn) := by
  intro l
  induction l with
  | nil => intro _; rfl
  | cons w rest ih =>
    intro h
    have hw : w ≠ 0 := h w (by simp)
    have hrest : ∀ x ∈ rest, x ≠ 0 := fun x hx => h x (by simp [hx])
    simp [drainWarnings, hw, ih hrest]

theorem length_le_encodeRecords : ∀ recs : List (List Nat),
    recs.length ≤ (encodeRecords recs).length := by
  intro recs
  induction recs with
  | nil => simp
  | cons r rs ih =>
    rw [length_encodeRecords_cons]
    simp only [List.length_cons]
    omega

theorem length_reencodeRecords : ∀ recs : List (List Nat),
    (reencodeRecords recs).length = (encodeRecords recs).length := by
  intro recs
  induction recs with
  | nil => rfl
  | cons r rs ih =>
    rw [length_encodeRecords_cons]
    simp only [reencodeRecords, List.length_cons, List.length_append]
    omega

theorem feed_mem_feedRest (dec : DecState) (ctx : Ctx) (data : List Nat)
    (resp : FeedResp) (hf : FlowRet) (evs0 : List Event) :
    Event.feed data ∈ (feedRest dec ctx data resp hf evs0).2.2.2 := by
  unfold feedRest
  cases resp.code
  · dsimp only
    split <;> simp
  · dsimp only
    split <;> simp
  · simp
  · simp

/-- C8: `gst_libde265_dec_flush` is idempotent — the first call already
leaves the Backlog Flag cleared and the engine's pending-picture queue
empty, emits no frames, and a second call with no intervening feed returns
the very same state and emits nothing. -/
theorem flush_idempotent (dec : DecState) (ctx : Ctx) :
    flush (flush dec ctx).2.1 (flush dec ctx).2.2.1 =
      (true, (flush dec ctx).2.1, (flush dec ctx).2.2.1, []) ∧
    (flush dec ctx).2.1.buffer_full = false ∧
    (flush dec ctx).2.2.1.pics = [] ∧
    (flush dec ctx).2.2.2 = [] := by
  simp [flush, drainPending_eq_nil]

/-- C7: a parse cycle on a zero-length chunk (with the Backlog Flag unset,
or set with no pending picture so that it is cleared) feeds nothing to the
engine, performs no action at all beyond clearing the flag, and signals
need-more-data. -/
theorem parse_zero_length (dec : DecState) (ctx : Ctx) (resp : FeedResp) (hf : FlowRet)
    (h : dec.buffer_full = true → ctx.pics = []) :
    parse dec ctx [] resp hf =
      some (FlowRet.needData, { dec with buffer_full := false }, ctx, []) := by
  unfold parse
  by_cases hbf : dec.buffer_full
  · have hpics : ctx.pics = [] := h hbf
    simp [hbf, hpics, parseCore]
  · have hdec : { dec with buffer_full := false } = dec := by
      cases dec
      simp_all
    simp [hbf, hdec, parseCore]

theorem parse_zero_length_witness :
    parse ⟨-1, -1, false, 0, 1, Mode.packetized⟩ ⟨[], []⟩ [] ⟨DE265Result.ok, [], []⟩
        FlowRet.ok =
      some (FlowRet.needData, ⟨-1, -1, false, 0, 1, Mode.packetized⟩, ⟨[], []⟩, []) :=
  parse_zero_length ⟨-1, -1, false, 0, 1, Mode.packetized⟩ ⟨[], []⟩
    ⟨DE265Result.ok, [], []⟩ FlowRet.ok (by decide)

/-- C6: `_gst_libde265_image_available` renegotiates exactly when the
picture geometry differs from the recorded one — one renegotiation event
carrying the new width/height (and the configured frame rate if positive),
emitted before the frame, with the recorded geometry updated — and emits no
renegotiation when the geometry matches; in particular the second of two
consecutive pictures with identical dimensions never renegotiates. -/
theorem imageAvailable_geometry :
    (∀ (dec : DecState) (img : Pic) (hf : FlowRet),
      imageAvailable dec img hf =
        (hf,
         if img.width ≠ dec.width ∨ img.height ≠ dec.height then
           { dec with width := img.width, height := img.height }
         else dec,
         if img.width ≠ dec.width ∨ img.height ≠ dec.height then
           [Event.renegotiate img.width img.height
              (if dec.fps_n > 0 then some (dec.fps_n, dec.fps_d) else none),
            Event.haveFrame]
         else [Event.haveFrame])) ∧
    (∀ (dec : DecState) (img img2 : Pic) (hf hf2 : FlowRet),
      img2.width = img.width → img2.height = img.height →
      (imageAvailable (imageAvailable dec img hf).2.1 img2 hf2).2.2 = [Event.haveFrame]) := by
  constructor
  · intro dec img hf
    unfold imageAvailable
    split
    · simp_all
    · simp_all
  · intro dec img img2 hf hf2 hw hh
    unfold imageAvailable
    split
    · simp_all
    · rename_i hne
      push_neg at hne
      simp_all

theorem imageAvailable_geometry_witness :
    (imageAvailable
      (imageAvailable ⟨-1, -1, false, 0, 1, Mode.packetized⟩ ⟨64, 48⟩ FlowRet.ok).2.1
      ⟨64, 48⟩ FlowRet.ok).2.2 = [Event.haveFrame] :=
  imageAvailable_geometry.2 ⟨-1, -1, false, 0, 1, Mode.packetized⟩ ⟨64, 48⟩ ⟨64, 48⟩
    FlowRet.ok FlowRet.ok rfl rfl

/-- C1: a parse cycle that begins with the Backlog Flag set first checks the
engine for a pending picture.  If one is pending, it is surfaced (no bytes
of the new chunk are taken, nothing is fed, the flag stays set, a frame is
emitted); if none is pending, the flag is cleared and the cycle proceeds as
a normal feed cycle.  Consequently a cycle can end with the flag cleared
from set only when no picture was pending at the start of the cycle. -/
theorem parse_backlog_drain (dec : DecState) (ctx : Ctx) (adapter : List Nat)
    (resp : FeedResp) (hf : FlowRet) :
    (dec.buffer_full = true →
      (∀ img, ctx.pics.head? = some img →
        parse dec ctx adapter resp hf =
          some (hf, (imageAvailable dec img hf).2.1, ctx, (imageAvailable dec img hf).2.2) ∧
        (imageAvailable dec img hf).2.1.buffer_full = true ∧
        (∀ b, Event.feed b ∉ (imageAvailable dec img hf).2.2) ∧
        (∀ n, Event.takeBuffer n ∉ (imageAvailable dec img hf).2.2) ∧
        Event.haveFrame ∈ (imageAvailable dec img hf).2.2) ∧
      (ctx.pics.head? = none →
        parse dec ctx adapter resp hf =
          parseCore { dec with buffer_full := false } ctx adapter resp hf)) ∧
    (∀ r dec2 ctx2 evs, parse dec ctx adapter resp hf = some (r, dec2, ctx2, evs) →
      dec.buffer_full = true → dec2.buffer_full = false → ctx.pics = []) := by
  constructor
  · intro hbf
    constructor
    · intro img himg
      refine ⟨?_, ?_, ?_, ?_, ?_⟩
      · rw [parse, if_pos hbf, himg]
        dsimp only
        rw [imageAvailable_fst]
      · rw [imageAvailable_buffer_full]
        exact hbf
      · intro b
        unfold imageAvailable
        split <;> simp
      · intro n
        unfold imageAvailable
        split <;> simp
      · unfold imageAvailable
        split <;> simp
    · intro hnone
      rw [parse, if_pos hbf, hnone]
  · intro r dec2 ctx2 evs hp hbf hbf2
    rw [parse, if_pos hbf] at hp
    cases hhead : ctx.pics.head? with
    | none => exact List.head?_eq_none_iff.mp hhead
    | some img =>
      rw [hhead] at hp
      dsimp only at hp
      simp only [Option.some.injEq, Prod.mk.injEq] at hp
      obtain ⟨-, hdec2, -, -⟩ := hp
      rw [← hdec2, imageAvailable_buffer_full, hbf] at hbf2
      exact absurd hbf2 (by simp)

theorem parse_backlog_drain_witness :
    parse ⟨-1, -1, true, 0, 1, Mode.packetized⟩ ⟨[⟨64, 48⟩], []⟩ [7]
        ⟨DE265Result.ok, [], []⟩ FlowRet.ok =
      some (FlowRet.ok,
        (imageAvailable ⟨-1, -1, true, 0, 1, Mode.packetized⟩ ⟨64, 48⟩ FlowRet.ok).2.1,
        ⟨[⟨64, 48⟩], []⟩,
        (imageAvailable ⟨-1, -1, true, 0, 1, Mode.packetized⟩ ⟨64, 48⟩ FlowRet.ok).2.2) :=
  ((((parse_backlog_drain ⟨-1, -1, true, 0, 1, Mode.packetized⟩ ⟨[⟨64, 48⟩], []⟩ [7]
    ⟨DE265Result.ok, [], []⟩ FlowRet.ok).1 rfl).1 ⟨64, 48⟩ rfl)).1

/-- C3: in packetized mode, when the length-field walk overruns the buffer
(`start_data > end_data` after the loop), the cycle posts a stream error and
aborts with GST_FLOW_ERROR before `de265_push_data` is reached: no feed
event occurs and the decoder/engine state is untouched. -/
theorem parse_framing_overflow (dec : DecState) (ctx : Ctx) (adapter : List Nat)
    (resp : FeedResp) (hf : FlowRet) (data : List Nat) (pos marks : Nat)
    (hmode : dec.mode = Mode.packetized) (hbf : dec.buffer_full = false)
    (hwalk : reframeWalkF (reframeBound adapter) adapter 0 0 =
      some (WalkOut.fin data pos marks))
    (hover : data.length < pos) :
    parse dec ctx adapter resp hf =
      some (FlowRet.error, dec, ctx, [Event.takeBuffer adapter.length, Event.elementError]) := by
  have hne : adapter.length ≠ 0 := by
    intro h0
    have hnil : adapter = [] := List.length_eq_zero.mp h0
    subst hnil
    have : reframeWalkF (reframeBound []) [] 0 0 = some (WalkOut.fin [] 0 0) := rfl
    rw [this] at hwalk
    simp only [Option.some.injEq, WalkOut.fin.injEq] at hwalk
    obtain ⟨hdata, hpos, -⟩ := hwalk
    subst hdata
    subst hpos
    simp at hover
  rw [parse, if_neg (by simp [hbf]), parseCore, if_neg hne, if_pos hmode, hwalk]
  simp only [if_pos hover]
  rfl

theorem parse_framing_overflow_witness :
    parse ⟨-1, -1, false, 0, 1, Mode.packetized⟩ ⟨[], []⟩ [0, 0, 0, 5]
        ⟨DE265Result.ok, [], []⟩ FlowRet.ok =
      some (FlowRet.error, ⟨-1, -1, false, 0, 1, Mode.packetized⟩, ⟨[], []⟩,
        [Event.takeBuffer 4, Event.elementError]) :=
  parse_framing_overflow ⟨-1, -1, false, 0, 1, Mode.packetized⟩ ⟨[], []⟩ [0, 0, 0, 5]
    ⟨DE265Result.ok, [], []⟩ FlowRet.ok [0, 0, 0, 1] 9 1 rfl rfl (by decide) (by decide)

/-- C4 (amended): for a buffer that exactly tiles into length-prefixed
records whose lengths are below 2^31 (so that the C code's signed `int` read
of each length field is non-negative), the rewriting walk terminates at the
buffer end, preserves the total length, and writes exactly one start-code
marker per record. -/
theorem reframe_valid_buffer (recs : List (List Nat))
    (h : ∀ r ∈ recs, r.length < 2147483648) :
    reframeWalkF (reframeBound (encodeRecords recs)) (encodeRecords recs) 0 0 =
      some (WalkOut.fin (reencodeRecords recs) (encodeRecords recs).length recs.length) ∧
    (reencodeRecords recs).length = (encodeRecords recs).length := by
  constructor
  · have hfuel : recs.length + 1 ≤ reframeBound (encodeRecords recs) := by
      have := length_le_encodeRecords recs
      unfold reframeBound
      omega
    have hw := reframeWalkF_encode recs [] [] 0 (reframeBound (encodeRecords recs))
      h (by simp) hfuel
    simpa using hw
  · exact length_reencodeRecords recs

theorem reframe_valid_buffer_witness :
    reframeWalkF (reframeBound (encodeRecords [[7], [], [1, 2]]))
        (encodeRecords [[7], [], [1, 2]]) 0 0 =
      some (WalkOut.fin (reencodeRecords [[7], [], [1, 2]])
        (encodeRecords [[7], [], [1, 2]]).length 3) ∧
    (reencodeRecords [[7], [], [1, 2]]).length = (encodeRecords [[7], [], [1, 2]]).length :=
  reframe_valid_buffer [[7], [], [1, 2]] (by decide)

theorem one_le_reframeBound (l : List Nat) : 1 ≤ reframeBound l := by
  unfold reframeBound
  omega

/-- A single loop iteration whose length field jumps the cursor before the
buffer start ends the walk with `escaped` (undefined behaviour in C). -/
theorem reframeWalkF_escape (fuel : Nat) (l : List Nat) (pos marks : Nat)
    (hfuel : 1 ≤ fuel) (hin : pos + 4 ≤ l.length)
    (hneg : ((pos : Int) + 4 + toInt32 (READ_BE32 l pos)) < 0) :
    reframeWalkF fuel l pos marks = some WalkOut.escaped := by
  obtain ⟨f, rfl⟩ : ∃ f, fuel = f + 1 := ⟨fuel - 1, by omega⟩
  rw [reframeWalkF_succ, if_pos hin, if_pos hneg]

/-- C4 counterexample: the buffer encoding the single record whose payload is
2^31 zero bytes is a valid length-prefixed buffer (it exactly tiles), yet the
walk does not rewrite it: the length field reads as a negative signed `int`
and moves the cursor before the buffer start (out-of-bounds read in C), so
reframing neither preserves the length nor writes one marker per record. -/
theorem reframe_valid_buffer_cex :
    reframeWalkF (reframeBound (encodeRecords [List.replicate 2147483648 0]))
      (encodeRecords [List.replicate 2147483648 0]) 0 0 = some WalkOut.escaped := by
  have hshape : encodeRecords [List.replicate 2147483648 0] =
      128 :: 0 :: 0 :: 0 :: List.replicate 2147483648 0 := by
    simp only [encodeRecords, lenBE32, List.length_replicate, List.append_nil,
      List.cons_append, List.nil_append]
  rw [hshape]
  have hlen : (128 :: 0 :: 0 :: 0 :: List.replicate 2147483648 0).length =
      2147483648 + 4 := by
    rw [List.length_cons, List.length_cons, List.length_cons, List.length_cons,
      List.length_replicate]
  have g0 : (128 :: 0 :: 0 :: 0 :: List.replicate 2147483648 0).getD 0 0 = 128 := rfl
  have g1 : (128 :: 0 :: 0 :: 0 :: List.replicate 2147483648 0).getD 1 0 = 0 := rfl
  have g2 : (128 :: 0 :: 0 :: 0 :: List.replicate 2147483648 0).getD 2 0 = 0 := rfl
  have g3 : (128 :: 0 :: 0 :: 0 :: List.replicate 2147483648 0).getD 3 0 = 0 := rfl
  have hread : READ_BE32 (128 :: 0 :: 0 :: 0 :: List.replicate 2147483648 0) 0 =
      2147483648 := by
    unfold READ_BE32
    simp only [Nat.zero_add]
    rw [g0, g1, g2, g3]
  have hcond : (((0 : Nat) : Int) + 4 +
      toInt32 (READ_BE32 (128 :: 0 :: 0 :: 0 :: List.replicate 2147483648 0) 0)) < 0 := by
    rw [hread, toInt32_of_ge (by norm_num) (by norm_num)]
    norm_num
  apply reframeWalkF_escape
  · exact one_le_reframeBound _
  · rw [hlen]
    omega
  · exact hcond

/-- C9 (amended): the length-field walk always terminates — the explicit
fuel `reframeBound` suffices from any start position — and when it stops
normally the final cursor is a position with fewer than 4 bytes remaining
(possibly past the buffer end).  The cursor can, however, also escape before
the buffer start on a negative length field (`WalkOut.escaped`), which is
the amendment to the claim. -/
theorem reframe_walk_terminates :
    (∀ (l : List Nat) (pos marks : Nat),
      (reframeWalkF (reframeBound l) l pos marks).isSome = true) ∧
    (∀ (l : List Nat) (pos marks : Nat) (data : List Nat) (f m : Nat),
      reframeWalkF (reframeBound l) l pos marks = some (WalkOut.fin data f m) →
      data.length < f + 4) :=
  ⟨fun l pos marks => reframeWalkF_bound_isSome l pos marks,
   fun l pos marks data f m hw => reframeWalkF_fin_pos (reframeBound l) l pos marks data f m hw⟩

theorem reframe_walk_terminates_witness :
    (reframeWalkF (reframeBound [0, 0, 0, 0]) [0, 0, 0, 0] 0 0).isSome = true ∧
    ([0, 0, 0, 1] : List Nat).length < 4 + 4 :=
  ⟨reframe_walk_terminates.1 [0, 0, 0, 0] 0 0,
   reframe_walk_terminates.2 [0, 0, 0, 0] 0 0 [0, 0, 0, 1] 4 1 (by decide)⟩

/-- C9 counterexample: on the 4-byte buffer 80 00 00 00 the first length
field reads as the signed `int` -2^31; the cursor jumps to 4 - 2^31, a
position before the buffer start (in C, out-of-bounds pointer arithmetic and
reads), so the walk does not reach a position with fewer than 4 bytes
remaining nor one past the buffer end. -/
theorem reframe_walk_terminates_cex :
    reframeWalkF (reframeBound [128, 0, 0, 0]) [128, 0, 0, 0] 0 0 =
      some WalkOut.escaped := by decide

/-- C10 (amended): a packetized buffer consisting of well-formed records
(lengths below 2^31) followed by 1 to 3 trailing bytes is not treated as a
framing overflow: the walk stops exactly at the start of the trailing bytes,
the whole rewritten buffer — with the trailing bytes unmodified — is fed to
the engine, and its total length is unchanged.  (Unmodified trailing bytes
are guaranteed only for such record-shaped buffers: a negative length field
can stop the walk inside bytes that an earlier start-code write touched.) -/
theorem parse_trailing_bytes (dec : DecState) (ctx : Ctx) (resp : FeedResp)
    (hf : FlowRet) (recs : List (List Nat)) (extra : List Nat)
    (hmode : dec.mode = Mode.packetized) (hbf : dec.buffer_full = false)
    (hrec : ∀ r ∈ recs, r.length < 2147483648)
    (hex1 : 1 ≤ extra.length) (hex3 : extra.length ≤ 3) :
    parse dec ctx (encodeRecords recs ++ extra) resp hf =
      some (feedRest dec ctx (reencodeRecords recs ++ extra) resp hf
        [Event.takeBuffer (encodeRecords recs ++ extra).length]) ∧
    (reencodeRecords recs ++ extra).length = (encodeRecords recs ++ extra).length ∧
    (reencodeRecords recs ++ extra).drop (encodeRecords recs).length = extra ∧
    Event.feed (reencodeRecords recs ++ extra) ∈
      (feedRest dec ctx (reencodeRecords recs ++ extra) resp hf
        [Event.takeBuffer (encodeRecords recs ++ extra).length]).2.2.2 := by
  have hlenre := length_reencodeRecords recs
  refine ⟨?_, ?_, ?_, ?_⟩
  · have hfuel : recs.length + 1 ≤ reframeBound (encodeRecords recs ++ extra) := by
      have h1 := length_le_encodeRecords recs
      unfold reframeBound
      simp only [List.length_append]
      omega
    have hw := reframeWalkF_encode recs [] extra 0
      (reframeBound (encodeRecords recs ++ extra)) hrec hex3 hfuel
    simp only [List.nil_append, List.length_nil, Nat.zero_add] at hw
    have hne : (encodeRecords recs ++ extra).length ≠ 0 := by
      simp only [List.length_append]
      omega
    rw [parse, if_neg (by simp [hbf]), parseCore, if_neg hne, if_pos hmode, hw]
    dsimp only
    rw [if_neg (by simp only [List.length_append]; omega)]
  · simp only [List.length_append]
    omega
  · rw [← hlenre, List.drop_left]
  · exact feed_mem_feedRest dec ctx (reencodeRecords recs ++ extra) resp hf
      [Event.takeBuffer (encodeRecords recs ++ extra).length]

theorem parse_trailing_bytes_witness :
    parse ⟨-1, -1, false, 0, 1, Mode.packetized⟩ ⟨[], []⟩
        (encodeRecords [[9]] ++ [6, 7]) ⟨DE265Result.ok, [], []⟩ FlowRet.ok =
      some (feedRest ⟨-1, -1, false, 0, 1, Mode.packetized⟩ ⟨[], []⟩
        (reencodeRecords [[9]] ++ [6, 7]) ⟨DE265Result.ok, [], []⟩ FlowRet.ok
        [Event.takeBuffer (encodeRecords [[9]] ++ [6, 7]).length]) ∧
    (reencodeRecords [[9]] ++ [6, 7]).length = (encodeRecords [[9]] ++ [6, 7]).length ∧
    (reencodeRecords [[9]] ++ [6, 7]).drop (encodeRecords [[9]]).length = [6, 7] ∧
    Event.feed (reencodeRecords [[9]] ++ [6, 7]) ∈
      (feedRest ⟨-1, -1, false, 0, 1, Mode.packetized⟩ ⟨[], []⟩
        (reencodeRecords [[9]] ++ [6, 7]) ⟨DE265Result.ok, [], []⟩ FlowRet.ok
        [Event.takeBuffer (encodeRecords [[9]] ++ [6, 7]).length]).2.2.2 :=
  parse_trailing_bytes ⟨-1, -1, false, 0, 1, Mode.packetized⟩ ⟨[], []⟩
    ⟨DE265Result.ok, [], []⟩ FlowRet.ok [[9]] [6, 7] rfl rfl (by decide) (by decide) (by decide)

/-- C10 counterexample: on the buffer FF FF FF FD the length field reads as
the signed `int` -3, so the walk stops at position 1 — strictly inside the
buffer with fewer than 4 bytes remaining.  No overflow error is raised and
the whole buffer is fed, but the trailing 3 bytes are NOT the original ones:
the start-code write at position 0 already overwrote them. -/
theorem parse_trailing_bytes_cex :
    parse ⟨-1, -1, false, 0, 1, Mode.packetized⟩ ⟨[], []⟩ [255, 255, 255, 253]
        ⟨DE265Result.ok, [], []⟩ FlowRet.ok =
      some (FlowRet.needData, ⟨-1, -1, false, 0, 1, Mode.packetized⟩, ⟨[], []⟩,
        [Event.takeBuffer 4, Event.feed [0, 0, 0, 1]]) ∧
    reframeWalkF (reframeBound [255, 255, 255, 253]) [255, 255, 255, 253] 0 0 =
      some (WalkOut.fin [0, 0, 0, 1] 1 1) ∧
    List.drop 1 [0, 0, 0, 1] ≠ List.drop 1 ([255, 255, 255, 253] : List Nat) := by
  refine ⟨by decide, by decide, by decide⟩

theorem warn_not_mem_imageAvailable (dec : DecState) (img : Pic) (hf : FlowRet) (w : Nat) :
    Event.warn w ∉ (imageAvailable dec img hf).2.2 := by
  unfold imageAvailable
  split <;> simp

/-- C2 (amended): only when `feed` returns DE265_OK does the cycle drain the
warning queue — completely, and before the pending-picture check whose
outcome (frame emission or need-more-data) the cycle then returns.  When
`feed` returns BufferFull or NeedMoreInput the cycle returns without
draining: the queue is left intact and no warning is surfaced. -/
theorem feedRest_warning_order (dec : DecState) (ctx : Ctx) (data : List Nat)
    (resp : FeedResp) (hf : FlowRet) (evs0 : List Event) :
    (resp.code = DE265Result.ok → (∀ w ∈ ctx.warns ++ resp.newWarns, w ≠ 0) →
      (feedRest dec ctx data resp hf evs0).2.2.1.warns = [] ∧
      (feedRest dec ctx data resp hf evs0).2.2.2 =
        evs0 ++ Event.feed data ::
          ((ctx.warns ++ resp.newWarns).map Event.warn ++
            (match (ctx.pics ++ resp.newPics).head? with
             | none => []
             | some img => (imageAvailable dec img hf).2.2))) ∧
    ((resp.code = DE265Result.imageBufferFull ∨ resp.code = DE265Result.waitingForInput) →
      (feedRest dec ctx data resp hf evs0).2.2.1.warns = ctx.warns ++ resp.newWarns ∧
      (∀ w, Event.warn w ∈ (feedRest dec ctx data resp hf evs0).2.2.2 →
        Event.warn w ∈ evs0)) := by
  rcases resp with ⟨code, newPics, newWarns⟩
  constructor
  · intro hok hnz
    dsimp only at hok hnz
    subst hok
    unfold feedRest
    dsimp only
    rw [drainWarnings_of_nonzero _ hnz]
    cases hh : (ctx.pics ++ newPics).head? with
    | none =>
      dsimp only
      exact ⟨rfl, by simp⟩
    | some img =>
      dsimp only
      exact ⟨rfl, by simp⟩
  · intro hcode
    dsimp only at hcode
    rcases hcode with rfl | rfl
    · unfold feedRest
      dsimp only
      cases hh : (ctx.pics ++ newPics).head? with
      | none =>
        dsimp only
        refine ⟨rfl, ?_⟩
        intro w hw
        simp only [List.mem_append, List.mem_singleton] at hw
        rcases hw with hw | hw
        · exact hw
        · simp at hw
      | some img =>
        dsimp only
        refine ⟨rfl, ?_⟩
        intro w hw
        simp only [List.mem_append, List.mem_singleton] at hw
        rcases hw with (hw | hw) | hw
        · exact hw
        · simp at hw
        · exact absurd hw (warn_not_mem_imageAvailable _ img hf w)
    · unfold feedRest
      dsimp only
      refine ⟨rfl, ?_⟩
      intro w hw
      simp only [List.mem_append, List.mem_singleton] at hw
      rcases hw with hw | hw
      · exact hw
      · simp at hw

theorem feedRest_warning_order_witness :
    (feedRest ⟨-1, -1, false, 0, 1, Mode.raw⟩ ⟨[], [5]⟩ [1] ⟨DE265Result.ok, [], []⟩
        FlowRet.ok [Event.takeBuffer 1]).2.2.1.warns = [] ∧
    (feedRest ⟨-1, -1, false, 0, 1, Mode.raw⟩ ⟨[], [5]⟩ [1] ⟨DE265Result.ok, [], []⟩
        FlowRet.ok [Event.takeBuffer 1]).2.2.2 =
      [Event.takeBuffer 1, Event.feed [1], Event.warn 5] :=
  (feedRest_warning_order ⟨-1, -1, false, 0, 1, Mode.raw⟩ ⟨[], [5]⟩ [1]
    ⟨DE265Result.ok, [], []⟩ FlowRet.ok [Event.takeBuffer 1]).1 rfl (by decide)

/-- C2 counterexample: a cycle whose feed returns BufferFull (not a fatal
error) with a non-empty warning queue returns need-more-data without running
the warning drain: no warning event is emitted and the queue still holds the
warning afterwards, contradicting the claim that `drainWarnings` runs after
every non-fatal feed result before that result is acted upon. -/
theorem feedRest_warning_order_cex :
    parse ⟨-1, -1, false, 0, 1, Mode.raw⟩ ⟨[], [5]⟩ [1]
        ⟨DE265Result.imageBufferFull, [], []⟩ FlowRet.ok =
      some (FlowRet.needData, ⟨-1, -1, true, 0, 1, Mode.raw⟩, ⟨[], [5]⟩,
        [Event.takeBuffer 1, Event.feed [1]]) := by decide

theorem drop_set_of_lt :
    ∀ (l : List Nat) (i v j : Nat), i < j → (l.set i v).drop j = l.drop j := by
  intro l
  induction l with
  | nil => intro i v j _; simp
  | cons a t ih =>
    intro i v j hij
    cases i with
    | zero =>
      cases j with
      | zero => omega
      | succ k => simp [List.set_cons_zero, List.drop_succ_cons]
    | succ i2 =>
      cases j with
      | zero => omega
      | succ k =>
        simp only [List.set_cons_succ, List.drop_succ_cons]
        exact ih i2 v k (by omega)

theorem take_set_succ :
    ∀ (l : List Nat) (i v : Nat), i < l.length →
      (l.set i v).take (i + 1) = l.take i ++ [v] := by
  intro l
  induction l with
  | nil => intro i v h; simp at h
  | cons a t ih =>
    intro i v h
    cases i with
    | zero => simp
    | succ i2 =>
      simp only [List.set_cons_succ, List.take_succ_cons]
      rw [ih i2 v (by simpa using h)]
      simp

theorem length_writeAt :
    ∀ (bs dest : List Nat) (off : Nat), (writeAt dest off bs).length = dest.length := by
  intro bs
  induction bs with
  | nil => intro dest off; rfl
  | cons b t ih =>
    intro dest off
    simp only [writeAt]
    rw [ih (dest.set off b) (off + 1), List.length_set]

theorem writeAt_eq :
    ∀ (bs dest : List Nat) (off : Nat), off + bs.length ≤ dest.length →
      writeAt dest off bs = dest.take off ++ bs ++ dest.drop (off + bs.length) := by
  intro bs
  induction bs with
  | nil =>
    intro dest off _
    simp [writeAt, List.take_append_drop]
  | cons b t ih =>
    intro dest off hlen
    simp only [List.length_cons] at hlen
    have hofflt : off < dest.length := by omega
    simp only [writeAt, List.length_cons]
    rw [ih (dest.set off b) (off + 1) (by rw [List.length_set]; omega)]
    rw [take_set_succ dest off b hofflt]
    rw [drop_set_of_lt dest off b (off + 1 + t.length) (by omega)]
    have hidx : off + 1 + t.length = off + (t.length + 1) := by omega
    rw [hidx]
    simp [List.append_assoc]

theorem length_takeRows :
    ∀ (h : Nat) (src : List Nat) (w stride : Nat), w ≤ stride →
      h * stride ≤ src.length → (takeRows src w stride h).length = h * w := by
  intro h
  induction h with
  | zero => intro src w stride _ _; simp [takeRows]
  | succ k ih =>
    intro src w stride hws hsl
    rw [Nat.succ_mul] at hsl
    have hdl : k * stride ≤ (src.drop stride).length := by
      rw [List.length_drop]
      omega
    simp only [takeRows, List.length_append]
    rw [ih (src.drop stride) w stride hws hdl, List.length_take, Nat.succ_mul]
    omega

theorem take_append_of_length (A B : List Nat) (n : Nat) (h : A.length = n) :
    (A ++ B).take n = A := by
  subst h
  exact List.take_left A B

theorem drop_append_add (A B : List Nat) (n m : Nat) (h : A.length = n) :
    (A ++ B).drop (n + m) = B.drop m := by
  subst h
  exact List.drop_append m

/-- The row copies of `vp8CopyRows` land contiguously: when the destination
region is in bounds and the source holds `h` full rows, the result replaces
exactly the `h * w` destination bytes at `off` with the extracted rows. -/
theorem vp8CopyRows_eq :
    ∀ (h : Nat) (dest src : List Nat) (off stride w : Nat), w ≤ stride →
      h * stride ≤ src.length → off + h * w ≤ dest.length →
      vp8CopyRows dest off src stride w h =
        dest.take off ++ takeRows src w stride h ++ dest.drop (off + h * w) := by
  intro h
  induction h with
  | zero =>
    intro dest src off stride w _ _ _
    simp [vp8CopyRows, takeRows, List.take_append_drop]
  | succ k ih =>
    intro dest src off stride w hws hsl hdl
    rw [Nat.succ_mul] at hsl hdl
    have htw : (src.take w).length = w := by
      rw [List.length_take]
      omega
    simp only [vp8CopyRows, takeRows]
    rw [writeAt_eq (src.take w) dest off (by rw [htw]; omega)]
    rw [htw]
    have hA : (dest.take off).length = off := by
      rw [List.length_take]
      omega
    have hAB : (dest.take off ++ src.take w).length = off + w := by
      rw [List.length_append, hA, htw]
    rw [ih (dest.take off ++ src.take w ++ dest.drop (off + w)) (src.drop stride)
      (off + w) stride w hws
      (by rw [List.length_drop]; omega)
      (by simp only [List.length_append, List.length_drop, hA, htw]; omega)]
    have htk : (dest.take off ++ src.take w ++ dest.drop (off + w)).take (off + w) =
        dest.take off ++ src.take w := take_append_of_length _ _ _ hAB
    have hdr : (dest.take off ++ src.take w ++ dest.drop (off + w)).drop (off + w + k * w) =
        dest.drop (off + w + k * w) := by
      have h1 := drop_append_add (dest.take off ++ src.take w) (dest.drop (off + w))
        (off + w) (k * w) hAB
      rw [h1, List.drop_drop]
    rw [htk, hdr]
    have hidx : off + (k + 1) * w = off + w + k * w := by
      rw [Nat.succ_mul]
      omega
    rw [hidx]
    simp [List.append_assoc]

/-- For even dimensions the fixed cr destination offset
`width * height + width * height / 4` coincides with the end of the cb rows. -/
theorem quarter_of_even (w h : Nat) (hw : 2 ∣ w) (hh : 2 ∣ h) :
    w * h / 4 = h / 2 * (w / 2) := by
  obtain ⟨a, rfl⟩ := hw
  obtain ⟨b, rfl⟩ := hh
  have h1 : 2 * a * (2 * b) = 4 * (a * b) := by ring
  rw [h1, Nat.mul_div_cancel_left (a * b) (by norm_num : (0 : Nat) < 4),
    Nat.mul_div_cancel_left a (by norm_num : (0 : Nat) < 2),
    Nat.mul_div_cancel_left b (by norm_num : (0 : Nat) < 2)]
  ring

/-- C5 (amended): the libde265 assembler copies the three planes in fixed
order, each as `height * stride` bytes at consecutive destination offsets;
the result is the canonical tightly packed planar 4:2:0 frame exactly when
each plane's stride equals its width (the source stride padding is otherwise
copied along).  The vp8 assembler writes rows of `width` bytes at fixed
destination offsets (chroma regions at `width * height` and
`width * height + width * height / 4`); for matching geometry with even
width and height these regions tile exactly, and the assembled buffer is the
canonical frame regardless of the source strides (for odd dimensions a gap
of unwritten bytes remains between the chroma regions). -/
theorem assembler_tight_packing :
    (∀ img : Image3, img.y.stride = img.y.width → img.cb.stride = img.cb.width →
      img.cr.stride = img.cr.width → handleFrameCopy img = specTightFrame img) ∧
    (∀ (w h : Nat) (img : Image3) (dest : List Nat), 2 ∣ w → 2 ∣ h →
      img.y.width = w → img.y.height = h →
      img.cb.width = w / 2 → img.cb.height = h / 2 →
      img.cr.width = w / 2 → img.cr.height = h / 2 →
      w ≤ img.y.stride → h * img.y.stride ≤ img.y.data.length →
      w / 2 ≤ img.cb.stride → h / 2 * img.cb.stride ≤ img.cb.data.length →
      w / 2 ≤ img.cr.stride → h / 2 * img.cr.stride ≤ img.cr.data.length →
      dest.length = w * h + w * h / 4 + h / 2 * (w / 2) →
      vp8Assemble w h img dest = specTightFrame img) := by
  constructor
  · intro img hy hcb hcr
    unfold handleFrameCopy specTightFrame
    rw [hy, hcb, hcr, takeRows_stride_eq_width, takeRows_stride_eq_width,
      takeRows_stride_eq_width]
  · intro w h img dest hw2 hh2 ey1 ey2 ecb1 ecb2 ecr1 ecr2 sy1 sy2 scb1 scb2 scr1 scr2 hdl
    have hq : w * h / 4 = h / 2 * (w / 2) := quarter_of_even w h hw2 hh2
    have hcm : h * w = w * h := Nat.mul_comm h w
    have hYlen : (takeRows img.y.data w img.y.stride h).length = h * w :=
      length_takeRows h img.y.data w img.y.stride sy1 sy2
    have hCblen : (takeRows img.cb.data (w / 2) img.cb.stride (h / 2)).length =
        h / 2 * (w / 2) :=
      length_takeRows (h / 2) img.cb.data (w / 2) img.cb.stride scb1 scb2
    unfold vp8Assemble
    rw [vp8CopyRows_eq h dest img.y.data 0 img.y.stride w sy1 sy2 (by omega)]
    simp only [List.take_zero, List.nil_append, Nat.zero_add]
    rw [vp8CopyRows_eq (h / 2) (takeRows img.y.data w img.y.stride h ++ dest.drop (h * w))
      img.cb.data (w * h) img.cb.stride (w / 2) scb1 scb2
      (by simp only [List.length_append, List.length_drop, hYlen]; omega)]
    rw [take_append_of_length _ _ (w * h) (by rw [hYlen]; exact hcm)]
    rw [drop_append_add _ _ (w * h) (h / 2 * (w / 2)) (by rw [hYlen]; exact hcm)]
    rw [List.drop_drop]
    rw [hq]
    rw [vp8CopyRows_eq (h / 2)
      ((takeRows img.y.data w img.y.stride h ++
          takeRows img.cb.data (w / 2) img.cb.stride (h / 2)) ++
        dest.drop (h * w + h / 2 * (w / 2)))
      img.cr.data (w * h + h / 2 * (w / 2)) img.cr.stride (w / 2) scr1 scr2
      (by simp only [List.length_append, List.length_drop, hYlen, hCblen]; omega)]
    rw [take_append_of_length _ _ (w * h + h / 2 * (w / 2))
      (by rw [List.length_append, hYlen, hCblen]; omega)]
    rw [drop_append_add _ _ (w * h + h / 2 * (w / 2)) (h / 2 * (w / 2))
      (by rw [List.length_append, hYlen, hCblen]; omega)]
    rw [List.drop_drop]
    rw [List.drop_eq_nil_of_le (by rw [hdl]; omega)]
    unfold specTightFrame
    rw [ey1, ey2, ecb1, ecb2, ecr1, ecr2]
    simp [List.append_assoc]

theorem assembler_tight_packing_witness :
    handleFrameCopy ⟨⟨2, 2, 2, [1, 2, 3, 4]⟩, ⟨1, 1, 1, [5]⟩, ⟨1, 1, 1, [6]⟩⟩ =
      specTightFrame ⟨⟨2, 2, 2, [1, 2, 3, 4]⟩, ⟨1, 1, 1, [5]⟩, ⟨1, 1, 1, [6]⟩⟩ ∧
    vp8Assemble 2 2 ⟨⟨2, 2, 3, [1, 2, 0, 3, 4, 0]⟩, ⟨1, 1, 2, [5, 0]⟩, ⟨1, 1, 2, [6, 0]⟩⟩
        [9, 9, 9, 9, 9, 9] =
      specTightFrame ⟨⟨2, 2, 3, [1, 2, 0, 3, 4, 0]⟩, ⟨1, 1, 2, [5, 0]⟩, ⟨1, 1, 2, [6, 0]⟩⟩ :=
  ⟨assembler_tight_packing.1 ⟨⟨2, 2, 2, [1, 2, 3, 4]⟩, ⟨1, 1, 1, [5]⟩, ⟨1, 1, 1, [6]⟩⟩
    rfl rfl rfl,
   assembler_tight_packing.2 2 2
    ⟨⟨2, 2, 3, [1, 2, 0, 3, 4, 0]⟩, ⟨1, 1, 2, [5, 0]⟩, ⟨1, 1, 2, [6, 0]⟩⟩ [9, 9, 9, 9, 9, 9]
    (by decide) (by decide) rfl rfl rfl rfl rfl rfl (by decide) (by decide)
    (by decide) (by decide) (by decide) (by decide) (by decide)⟩

/-- C5 counterexample: a luma plane of width 2 with stride 3 (one padding
byte per row).  The libde265 copy keeps the padding bytes, so the assembled
buffer is not the tightly packed 4:2:0 layout: the claim's "regardless of
the source picture's internal stride/alignment" fails on this picture. -/
theorem assembler_tight_packing_cex :
    handleFrameCopy ⟨⟨2, 2, 3, [1, 2, 9, 3, 4, 9]⟩, ⟨1, 1, 1, [5]⟩, ⟨1, 1, 1, [6]⟩⟩ ≠
      specTightFrame ⟨⟨2, 2, 3, [1, 2, 9, 3, 4, 9]⟩, ⟨1, 1, 1, [5]⟩, ⟨1, 1, 1, [6]⟩⟩ := by
  decide
